import Mathlib

/-!
Verification of the JSON-scraping pipeline in this repository
(parse_sephora_listing.py and sephora_perfume_scraper.py).

The Python code is shallowly embedded: parsed JSON values become the
inductive type JsonVal (Python json.loads maps JSON null to None; we keep
it as JsonVal.null and model dict.get accordingly), Python truthiness
becomes the function truthy, and code whose dynamic evaluation can raise
(TypeError from str concatenation with None, AttributeError from .get on
a non-dict) returns Except.  External collaborators (json.loads itself,
urllib url parsing, the salted builtin str hash, the network) are taken
as parameters of the embedded functions.
-/

/-- A parsed JSON value as produced by json.loads.  Numbers are modelled
as integers: no claim in scope depends on float specifics. -/
inductive JsonVal where
  | null : JsonVal
  | bool (b : Bool) : JsonVal
  | num (n : Int) : JsonVal
  | str (s : String) : JsonVal
  | arr (xs : List JsonVal) : JsonVal
  | obj (fields : List (String × JsonVal)) : JsonVal

mutual

/-- Decidable equality for JsonVal (the automatic derivation does not
handle the nested lists). -/
def JsonVal.decEq : (a b : JsonVal) → Decidable (a = b)
  | .null, .null => isTrue rfl
  | .null, .bool _ => isFalse nofun
  | .null, .num _ => isFalse nofun
  | .null, .str _ => isFalse nofun
  | .null, .arr _ => isFalse nofun
  | .null, .obj _ => isFalse nofun
  | .bool _, .null => isFalse nofun
  | .bool a, .bool b =>
    if h : a = b then isTrue (h ▸ rfl) else isFalse (fun hh => h (JsonVal.bool.inj hh))
  | .bool _, .num _ => isFalse nofun
  | .bool _, .str _ => isFalse nofun
  | .bool _, .arr _ => isFalse nofun
  | .bool _, .obj _ => isFalse nofun
  | .num _, .null => isFalse nofun
  | .num _, .bool _ => isFalse nofun
  | .num a, .num b =>
    if h : a = b then isTrue (h ▸ rfl) else isFalse (fun hh => h (JsonVal.num.inj hh))
  | .num _, .str _ => isFalse nofun
  | .num _, .arr _ => isFalse nofun
  | .num _, .obj _ => isFalse nofun
  | .str _, .null => isFalse nofun
  | .str _, .bool _ => isFalse nofun
  | .str _, .num _ => isFalse nofun
  | .str a, .str b =>
    if h : a = b then isTrue (h ▸ rfl) else isFalse (fun hh => h (JsonVal.str.inj hh))
  | .str _, .arr _ => isFalse nofun
  | .str _, .obj _ => isFalse nofun
  | .arr _, .null => isFalse nofun
  | .arr _, .bool _ => isFalse nofun
  | .arr _, .num _ => isFalse nofun
  | .arr _, .str _ => isFalse nofun
  | .arr xs, .arr ys =>
    match JsonVal.decEqArr xs ys with
    | isTrue h => isTrue (h ▸ rfl)
    | isFalse h => isFalse (fun hh => h (JsonVal.arr.inj hh))
  | .arr _, .obj _ => isFalse nofun
  | .obj _, .null => isFalse nofun
  | .obj _, .bool _ => isFalse nofun
  | .obj _, .num _ => isFalse nofun
  | .obj _, .str _ => isFalse nofun
  | .obj _, .arr _ => isFalse nofun
  | .obj xs, .obj ys =>
    match JsonVal.decEqFields xs ys with
    | isTrue h => isTrue (h ▸ rfl)
    | isFalse h => isFalse (fun hh => h (JsonVal.obj.inj hh))

def JsonVal.decEqArr : (xs ys : List JsonVal) → Decidable (xs = ys)
  | [], [] => isTrue rfl
  | [], _ :: _ => isFalse nofun
  | _ :: _, [] => isFalse nofun
  | x :: xs, y :: ys =>
    match JsonVal.decEq x y with
    | isFalse h1 => isFalse (fun hh => h1 (List.cons.inj hh).1)
    | isTrue h1 =>
      match JsonVal.decEqArr xs ys with
      | isTrue h2 => isTrue (by rw [h1, h2])
      | isFalse h2 => isFalse (fun hh => h2 (List.cons.inj hh).2)

def JsonVal.decEqFields : (xs ys : List (String × JsonVal)) → Decidable (xs = ys)
  | [], [] => isTrue rfl
  | [], _ :: _ => isFalse nofun
  | _ :: _, [] => isFalse nofun
  | (k1, v1) :: xs, (k2, v2) :: ys =>
    if hk : k1 = k2 then
      match JsonVal.decEq v1 v2 with
      | isFalse h1 => isFalse (fun hh => h1 (congrArg Prod.snd (List.cons.inj hh).1))
      | isTrue h1 =>
        match JsonVal.decEqFields xs ys with
        | isTrue h2 => isTrue (by rw [hk, h1, h2])
        | isFalse h2 => isFalse (fun hh => h2 (List.cons.inj hh).2)
    else
      isFalse (fun hh => hk (congrArg Prod.fst (List.cons.inj hh).1))

end

instance : DecidableEq JsonVal := JsonVal.decEq

/-- Python truthiness of a parsed-JSON runtime value (bool(v)):
None, False, 0, "", [], {} are falsy. -/
def truthy : JsonVal → Bool
  | .null => false
  | .bool b => b
  | .num n => n != 0
  | .str s => s != ""
  | .arr xs => !xs.isEmpty
  | .obj fs => !fs.isEmpty

/-- Python `a or b` on runtime values. -/
def pyOr (a b : JsonVal) : JsonVal := if truthy a then a else b

/-- Python d.get(k) on a dict parsed from JSON: absent key gives None,
and a JSON null value is already None.  Both are JsonVal.null here. -/
def pyGet (fs : List (String × JsonVal)) (k : String) : JsonVal :=
  match fs.lookup k with
  | some v => v
  | none => .null

/-- Python d.get(k, default): the default is used only when the key is
absent; a key present with JSON null still gives None. -/
def pyGetD (fs : List (String × JsonVal)) (k : String) (d : JsonVal) : JsonVal :=
  match fs.lookup k with
  | some v => v
  | none => d

example : truthy (.str "false") = true := by decide
example : pyGet [("a", .null)] "a" = .null := rfl
example : pyGetD [("a", .null)] "a" (.str "") = .null := rfl

/-!
## The balanced JSON scanner

parse_sephora_listing.py, find_json_objects_in_html (lines 51-96).
The inner character walk keeps a brace depth, a string-mode flag and an
escape flag; scanStep is the body of the inner `while j < L` loop for
one character.
-/

/-- State of the inner scanning loop: `depth`, `in_str`, `esc`. -/
structure ScanState where
  depth : Int
  inStr : Bool
  esc : Bool
deriving DecidableEq

/-- One character of the inner loop of find_json_objects_in_html:
an unescaped quote toggles string-mode; an unescaped backslash sets the
escape flag and skips the depth bookkeeping for itself (`j += 1;
continue`); otherwise the escape flag is cleared and braces outside
string-mode move the depth. -/
def scanStep (s : ScanState) (c : Char) : ScanState :=
  let inStr2 := if c = '"' && !s.esc then !s.inStr else s.inStr
  if c = '\\' && !s.esc then
    { s with esc := true }
  else if !inStr2 && c = '{' then
    { depth := s.depth + 1, inStr := inStr2, esc := false }
  else if !inStr2 && c = '}' then
    { depth := s.depth - 1, inStr := inStr2, esc := false }
  else
    { depth := s.depth, inStr := inStr2, esc := false }

/-- The inner `while j < L` loop: walk the characters from state `s`;
when a `}` outside string-mode brings the depth to zero, return the
consumed span (candidate, inclusive of the closing brace) and the
remaining characters.  Return none when the text ends first
(unterminated object). -/
def innerScan (s : ScanState) : List Char → Option (List Char × List Char)
  | [] => none
  | c :: cs =>
    if c = '}' ∧ (scanStep s c).inStr = false ∧ (scanStep s c).depth = 0 then
      some ([c], cs)
    else
      (innerScan (scanStep s c) cs).map (fun p => (c :: p.1, p.2))

theorem innerScan_sound (s : ScanState) (l sp r : List Char)
    (h : innerScan s l = some (sp, r)) : l = sp ++ r ∧ sp ≠ [] := by
  induction l generalizing s sp r with
  | nil => simp [innerScan] at h
  | cons c cs ih =>
    rw [innerScan] at h
    split at h
    · simp only [Option.some.injEq, Prod.mk.injEq] at h
      obtain ⟨h1, h2⟩ := h
      subst h1; subst h2; simp
    · cases hrec : innerScan (scanStep s c) cs with
      | none => rw [hrec] at h; simp at h
      | some p =>
        obtain ⟨p1, p2⟩ := p
        rw [hrec] at h
        simp only [Option.map_some', Option.some.injEq, Prod.mk.injEq] at h
        obtain ⟨h1, h2⟩ := h
        obtain ⟨ih1, -⟩ := ih _ _ _ hrec
        subst h1; subst h2
        refine ⟨?_, by simp⟩
        rw [ih1]; rfl

/-- The outer `while i < L` loop of find_json_objects_in_html: skip
until a `{`, run the inner walk, try the external JSON parser on the
candidate span, keep the result when it is a dict, and resume right
after the span (`i = j + 1`); an unterminated walk ends the whole scan.
`loads` models json.loads: it returns the parsed value, or none when
strict parsing fails. -/
def findJsonObjects (loads : List Char → Option JsonVal) :
    List Char → List (List (String × JsonVal))
  | [] => []
  | c :: cs =>
    if c = '{' then
      match h : innerScan ⟨0, false, false⟩ (c :: cs) with
      | none => []
      | some (sp, rest) =>
        match loads sp with
        | some (.obj m) => m :: findJsonObjects loads rest
        | _ => findJsonObjects loads rest
    else
      findJsonObjects loads cs
termination_by l => l.length
decreasing_by
  all_goals simp_wf
  all_goals
    (obtain ⟨h1, h2⟩ := innerScan_sound _ _ _ _ h
     have hsp : 0 < sp.length := List.length_pos.mpr h2
     calc rest.length < sp.length + rest.length := by omega
       _ = (c :: cs).length := by rw [h1, List.length_append])

/-- Top-level entry of the scanner on a Python string. -/
def find_json_objects_in_html (loads : List Char → Option JsonVal)
    (html : String) : List (List (String × JsonVal)) :=
  findJsonObjects loads html.data

/-- C4: during the scanner's walk, no character occurring inside a
double-quoted string moves the brace-depth counter: any step taken in
string-mode leaves the depth unchanged; an unescaped double quote
toggles string-mode while an escaped one never does; a backslash sets
the escape flag and the escaped unit is consumed with the flag cleared;
and a literal brace inside a string, even immediately after an escaped
quote, contributes nothing to the depth. -/
theorem c4_scanner_string_mode_depth (s : ScanState) (c : Char) :
    (s.inStr = true → (scanStep s c).depth = s.depth)
    ∧ (s.esc = false → (scanStep s '"').inStr = !s.inStr)
    ∧ (s.esc = true → (scanStep s '"').inStr = s.inStr ∧ (scanStep s '"').esc = false)
    ∧ (s.esc = false → scanStep s '\\' = { s with esc := true })
    ∧ (s.esc = true → (scanStep s c).esc = false)
    ∧ (s.inStr = true → s.esc = false →
        (scanStep (scanStep (scanStep s '\\') '"') '{').depth = s.depth
        ∧ (scanStep (scanStep (scanStep s '\\') '"') '{').inStr = true) := by
  refine ⟨?_, ?_, ?_, ?_, ?_, ?_⟩
  · intro h
    by_cases hq : c = '"'
    · subst hq; simp [scanStep, h]
    · by_cases hb : c = '\\'
      · subst hb; simp [scanStep, h]
        split_ifs <;> rfl
      · simp [scanStep, h, hq, hb]
  · intro h; simp [scanStep, h]
  · intro h; simp [scanStep, h]
  · intro h; simp [scanStep, h]
  · intro h
    by_cases hb : c = '\\'
    · subst hb; simp [scanStep, h]
    · simp [scanStep, h, hb]
      split_ifs <;> simp_all
  · intro h he; simp [scanStep, h, he]

/-- Witness for C4 at a concrete state: at depth 5 in string-mode a `{`
changes nothing, and at depth 7 the sequence backslash, quote, `{`
(escaped quote then a literal brace) leaves the depth at 7. -/
theorem c4_scanner_string_mode_depth_witness :
    (scanStep ⟨5, true, false⟩ '{').depth = 5
    ∧ (scanStep (scanStep (scanStep ⟨7, true, false⟩ '\\') '"') '{').depth = 7 :=
  ⟨(c4_scanner_string_mode_depth ⟨5, true, false⟩ '{').1 rfl,
   ((c4_scanner_string_mode_depth ⟨7, true, false⟩ '{').2.2.2.2.2 rfl rfl).1⟩

/-!
## A grammar of spans the scanner walks without miscounting

StrBody describes the inside of a double-quoted string as the scanner
understands it; ObjBody describes the body of a balanced object span
(plain characters, complete string literals, or nested balanced
objects); every strict-JSON object literal falls in ObjSpan.
-/

theorem optionMap_ext {a b : Type} (x : Option a) {f g : a → b}
    (h : ∀ v, f v = g v) : x.map f = x.map g := by
  cases x <;> simp [h]

/-- Body of a double-quoted string: plain characters (neither quote nor
backslash) or a backslash followed by any escaped character. -/
inductive StrBody : List Char → Prop where
  | nil : StrBody []
  | plain (c : Char) (rest : List Char) :
      c ≠ '"' → c ≠ '\\' → StrBody rest → StrBody (c :: rest)
  | escaped (c : Char) (rest : List Char) :
      StrBody rest → StrBody ('\\' :: c :: rest)

/-- Body of a balanced object span (the part between the outer braces). -/
inductive ObjBody : List Char → Prop where
  | nil : ObjBody []
  | plain (c : Char) (rest : List Char) :
      c ≠ '{' → c ≠ '}' → c ≠ '"' → c ≠ '\\' → ObjBody rest → ObjBody (c :: rest)
  | strUnit (sb rest : List Char) :
      StrBody sb → ObjBody rest → ObjBody ('"' :: (sb ++ '"' :: rest))
  | nested (body rest : List Char) :
      ObjBody body → ObjBody rest → ObjBody ('{' :: (body ++ '}' :: rest))

/-- A balanced top-level object span: braces around an ObjBody.  Every
well-formed JSON object literal has this shape (braces only delimit
objects, strings escape with backslashes). -/
def ObjSpan (t : List Char) : Prop := ∃ body, ObjBody body ∧ t = '{' :: (body ++ ['}'])

/-- Walking a string body in string-mode reaches the closing quote with
the state (in particular the depth) intact. -/
theorem innerScan_strbody (sb : List Char) (hsb : StrBody sb) :
    ∀ (d : Int) (rest : List Char),
      innerScan ⟨d, true, false⟩ (sb ++ '"' :: rest)
        = (innerScan ⟨d, false, false⟩ rest).map
            (fun p => ((sb ++ ['"']) ++ p.1, p.2) : List Char × List Char → _) := by
  induction hsb with
  | nil =>
    intro d rest
    rw [List.nil_append, innerScan]
    rw [if_neg (by simp)]
    have hstep : scanStep ⟨d, true, false⟩ '"' = ⟨d, false, false⟩ := by
      simp [scanStep]
    rw [hstep]
    congr 1
  | plain c rest2 hc1 hc2 hprev ih =>
    intro d rest
    rw [List.cons_append, innerScan]
    have hstep : scanStep ⟨d, true, false⟩ c = ⟨d, true, false⟩ := by
      simp [scanStep, hc1, hc2]
    rw [hstep, if_neg (by simp), ih d rest, Option.map_map]
    congr 1
  | escaped c rest2 hprev ih =>
    intro d rest
    rw [List.cons_append, innerScan]
    have hstep : scanStep ⟨d, true, false⟩ '\\' = ⟨d, true, true⟩ := by
      simp [scanStep]
    rw [hstep, if_neg (by simp), List.cons_append, innerScan]
    have hstep2 : scanStep ⟨d, true, true⟩ c = ⟨d, true, false⟩ := by
      by_cases hq : c = '"'
      · subst hq; simp [scanStep]
      · by_cases hb : c = '\\'
        · subst hb; simp [scanStep]
        · simp [scanStep, hq, hb]
    rw [hstep2, if_neg (by simp), ih d rest, Option.map_map, Option.map_map]
    congr 1

/-- Walking an object body at depth at least one consumes exactly the
body and returns to the same state. -/
theorem innerScan_objbody (body : List Char) (hb : ObjBody body) :
    ∀ (d : Int), 1 ≤ d → ∀ (rest : List Char),
      innerScan ⟨d, false, false⟩ (body ++ rest)
        = (innerScan ⟨d, false, false⟩ rest).map
            (fun p => (body ++ p.1, p.2) : List Char × List Char → _) := by
  induction hb with
  | nil =>
    intro d hd rest
    simp
  | plain c rest2 hc1 hc2 hc3 hc4 hprev ih =>
    intro d hd rest
    rw [List.cons_append, innerScan]
    have hstep : scanStep ⟨d, false, false⟩ c = ⟨d, false, false⟩ := by
      simp [scanStep, hc1, hc2, hc3, hc4]
    rw [hstep, if_neg (by simp [hc2]), ih d hd rest, Option.map_map]
    congr 1
  | strUnit sb rest2 hsb hprev ih =>
    intro d hd rest
    rw [List.cons_append, innerScan]
    have hstep : scanStep ⟨d, false, false⟩ '"' = ⟨d, true, false⟩ := by
      simp [scanStep]
    have hassoc : (sb ++ '"' :: rest2) ++ rest = sb ++ '"' :: (rest2 ++ rest) := by
      simp
    rw [hstep, if_neg (by simp), hassoc,
      innerScan_strbody sb hsb d (rest2 ++ rest), ih d hd rest]
    simp only [Option.map_map]
    exact optionMap_ext _ (fun p => by simp)
  | nested body2 rest2 hb2 hr2 ihb ihr =>
    intro d hd rest
    rw [List.cons_append, innerScan]
    have hstep : scanStep ⟨d, false, false⟩ '{' = ⟨d + 1, false, false⟩ := by
      simp [scanStep]
    have hassoc : (body2 ++ '}' :: rest2) ++ rest = body2 ++ '}' :: (rest2 ++ rest) := by
      simp
    rw [hstep, if_neg (by simp), hassoc,
      ihb (d + 1) (by omega) ('}' :: (rest2 ++ rest)), innerScan]
    have hstep2 : scanStep ⟨d + 1, false, false⟩ '}' = ⟨d, false, false⟩ := by
      simp [scanStep]
    rw [hstep2, if_neg (by simp; omega), ihr d hd rest]
    simp only [Option.map_map]
    exact optionMap_ext _ (fun p => by simp)

/-- The inner walk started on a balanced object span isolates exactly
that span and scanning can resume right after it. -/
theorem innerScan_objspan (t : List Char) (ht : ObjSpan t) (rest : List Char) :
    innerScan ⟨0, false, false⟩ (t ++ rest) = some (t, rest) := by
  obtain ⟨body, hb, rfl⟩ := ht
  rw [List.cons_append, innerScan]
  have hstep : scanStep ⟨0, false, false⟩ '{' = ⟨1, false, false⟩ := by
    simp [scanStep]
  have hassoc : (body ++ ['}']) ++ rest = body ++ '}' :: rest := by simp
  rw [hstep, if_neg (by simp), hassoc,
    innerScan_objbody body hb 1 (by norm_num) ('}' :: rest), innerScan]
  have hstep2 : scanStep ⟨1, false, false⟩ '}' = ⟨0, false, false⟩ := by
    simp [scanStep]
  rw [hstep2, if_pos ⟨rfl, rfl, rfl⟩]
  simp

theorem findJsonObjects_nil (loads : List Char → Option JsonVal) :
    findJsonObjects loads [] = [] := by
  simp [findJsonObjects]

theorem findJsonObjects_skip (loads : List Char → Option JsonVal)
    (c : Char) (cs : List Char) (h : c ≠ '{') :
    findJsonObjects loads (c :: cs) = findJsonObjects loads cs := by
  rw [findJsonObjects]
  simp [h]

/-- Brace-free text before a span is skipped character by character. -/
theorem findJsonObjects_junk (loads : List Char → Option JsonVal)
    (junk rest : List Char) (h : '{' ∉ junk) :
    findJsonObjects loads (junk ++ rest) = findJsonObjects loads rest := by
  induction junk with
  | nil => rfl
  | cons c cs ih =>
    have hc : c ≠ '{' := by
      intro hh; exact h (by simp [hh])
    rw [List.cons_append, findJsonObjects_skip loads c (cs ++ rest) hc]
    exact ih (fun hm => h (by simp [hm]))

/-- A balanced span at the head is consumed whole: the scan yields its
parse when it is a dict, drops it otherwise, and in both cases resumes
right after the span without rescanning it. -/
theorem findJsonObjects_step (loads : List Char → Option JsonVal)
    (t rest : List Char) (ht : ObjSpan t) :
    findJsonObjects loads (t ++ rest)
      = (match loads t with
         | some (.obj m) => m :: findJsonObjects loads rest
         | _ => findJsonObjects loads rest) := by
  obtain ⟨body, hb, rfl⟩ := ht
  have hscan := innerScan_objspan ('{' :: (body ++ ['}'])) ⟨body, hb, rfl⟩ rest
  rw [List.cons_append, findJsonObjects]
  simp only [if_pos rfl]
  rw [List.cons_append] at hscan
  rw [hscan]
  rfl

/-- C5 (amended): for input text consisting of well-formed, non-nested
top-level JSON object literals (balanced spans that the external parser
reads as dicts) interspersed with interstitial text containing no `{`
character, the scanner returns exactly the N parsed mappings in document
order; and on a span whose parse fails or is not a dict, scanning
resumes immediately after the span's end without rescanning it.  (The
original claim, with fully arbitrary interstitial text, is refuted by
c5_scanner_exact_objects_counterexample: a stray unmatched `{` in the
text swallows the following object.) -/
theorem c5_scanner_exact_objects (loads : List Char → Option JsonVal) :
    (∀ (chunks : List (List Char × List Char × List (String × JsonVal)))
       (trail : List Char),
      (∀ x ∈ chunks, '{' ∉ x.1 ∧ ObjSpan x.2.1 ∧ loads x.2.1 = some (.obj x.2.2)) →
      '{' ∉ trail →
      findJsonObjects loads
          (chunks.foldr (fun x acc => x.1 ++ (x.2.1 ++ acc)) trail)
        = chunks.map (fun x => x.2.2))
    ∧ (∀ t rest, ObjSpan t → (∀ m, loads t ≠ some (.obj m)) →
        findJsonObjects loads (t ++ rest) = findJsonObjects loads rest) := by
  constructor
  · intro chunks trail hch htrail
    induction chunks with
    | nil =>
      have : trail = trail ++ [] := by simp
      rw [List.foldr_nil, List.map_nil, this,
        findJsonObjects_junk loads trail [] htrail, findJsonObjects_nil]
    | cons x xs ih =>
      obtain ⟨hj, hspan, hload⟩ := hch x (by simp)
      rw [List.foldr_cons, List.map_cons,
        findJsonObjects_junk loads x.1 _ hj,
        findJsonObjects_step loads x.2.1 _ hspan, hload]
      exact congrArg _ (ih (fun y hy => hch y (by simp [hy])))
  · intro t rest ht hne
    rw [findJsonObjects_step loads t rest ht]
    cases hl : loads t with
    | none => rfl
    | some v =>
      cases v with
      | obj m => exact absurd hl (hne m)
      | null => rfl
      | bool b => rfl
      | num n => rfl
      | str s => rfl
      | arr xs => rfl

/-- A concrete stand-in for json.loads used by the C5 witness and
counterexample: it parses exactly the span \x7b"a":1\x7d. -/
def c5Loads : List Char → Option JsonVal := fun l =>
  if l = ['{', '"', 'a', '"', ':', '1', '}'] then some (.obj [("a", .num 1)])
  else none

/-- The span \x7b"a":1\x7d is a balanced object span. -/
theorem c5Span : ObjSpan ['{', '"', 'a', '"', ':', '1', '}'] := by
  refine ⟨['"', 'a', '"', ':', '1'], ?_, rfl⟩
  have hsb : StrBody ['a'] := .plain 'a' [] (by decide) (by decide) .nil
  have hr : ObjBody [':', '1'] :=
    .plain ':' ['1'] (by decide) (by decide) (by decide) (by decide)
      (.plain '1' [] (by decide) (by decide) (by decide) (by decide) .nil)
  exact ObjBody.strUnit ['a'] [':', '1'] hsb hr

/-- Witness for C5: one object with brace-free text around it is
extracted exactly once. -/
theorem c5_scanner_exact_objects_witness :
    findJsonObjects c5Loads ['x', '{', '"', 'a', '"', ':', '1', '}', 'y']
      = [[("a", JsonVal.num 1)]] := by
  have h := (c5_scanner_exact_objects c5Loads).1
    [(['x'], ['{', '"', 'a', '"', ':', '1', '}'], [("a", JsonVal.num 1)])] ['y']
    (by
      intro x hx
      simp only [List.mem_singleton] at hx
      subst hx
      exact ⟨by decide, c5Span, rfl⟩)
    (by decide)
  exact h

/-- Counterexample to C5 as stated: the text  x{y  before a well-formed
object is "arbitrary non-JSON text", yet the scanner returns no objects
at all, because the stray `{` starts a walk that swallows the object and
never rebalances. -/
theorem c5_scanner_exact_objects_counterexample :
    ObjSpan ['{', '"', 'a', '"', ':', '1', '}']
    ∧ c5Loads ['{', '"', 'a', '"', ':', '1', '}'] = some (.obj [("a", JsonVal.num 1)])
    ∧ findJsonObjects c5Loads
        (['x', '{', 'y'] ++ ['{', '"', 'a', '"', ':', '1', '}']) = [] := by
  refine ⟨c5Span, rfl, ?_⟩
  simp [findJsonObjects, innerScan, scanStep, c5Loads]

/-!
## Candidate filter and normalizer

parse_sephora_listing.py: normalize_and_extract (lines 98-132) and the
product-like filter in main (line 182).  The returned dict becomes the
structure ListingRow; fields hold runtime values (JsonVal), since the
code can put booleans, empty strings, or whatever the page supplied in
them.  Spots where the Python dynamically raises are modelled with
Except: `prod.get("brandName") + " " + prod.get("displayName", "")`
raises TypeError when brandName is absent/null (None + str), and
`current.get(...)` raises AttributeError when currentSku is a truthy
non-dict.
-/

/-- The row dict built by normalize_and_extract. -/
structure ListingRow where
  productId : JsonVal
  displayName : JsonVal
  brandName : JsonVal
  imageAltText : JsonVal
  isLimitedEdition : JsonVal
  isNew : JsonVal
  listPrice : JsonVal
  heroImage : JsonVal
  targetUrl : JsonVal
  rating : JsonVal
  reviews : JsonVal
deriving DecidableEq

/-- The candidate filter (line 182): `"brandName" in obj or "productId"
in obj or "displayName" in obj` - key presence, whatever the value. -/
def productLike (prod : List (String × JsonVal)) : Bool :=
  (prod.lookup "brandName").isSome || (prod.lookup "productId").isSome
    || (prod.lookup "displayName").isSome

/-- Line 104: `current = prod.get("currentSku") or {}`. -/
def currentOf (prod : List (String × JsonVal)) : JsonVal :=
  pyOr (pyGet prod "currentSku") (.obj [])

/-- Body of normalize_and_extract once `current` is known to be a dict
`cs`.  The displayName entry (line 121) is
`prod.get("displayName") or prod.get("brandName") + " " + prod.get("displayName", "")`;
the concatenation is only defined when both operands are strings,
otherwise Python raises TypeError.  All other fields use `or`-chains
with an empty-string default, and the two tri-state booleans follow
lines 107-113 and 124-125: the currentSku value wins unless it is None,
and a surviving None renders as the empty string. -/
def normalizeWith (prod cs : List (String × JsonVal)) : Except String ListingRow :=
  match (if truthy (pyGet prod "displayName") then Except.ok (pyGet prod "displayName")
         else
           match pyGet prod "brandName", pyGetD prod "displayName" (.str "") with
           | .str bs, .str ds => Except.ok (.str (bs ++ " " ++ ds))
           | _, _ => Except.error "TypeError") with
  | .error e => .error e
  | .ok dn =>
    .ok { productId := pyOr (pyOr (pyGet prod "productId") (pyGet prod "skuId")) (.str ""),
          displayName := dn,
          brandName := pyOr (pyGet prod "brandName") (.str ""),
          imageAltText := pyOr (pyOr (pyOr (pyGet cs "imageAltText")
            (pyGet prod "imageAltText")) (pyGet prod "altImage")) (.str ""),
          isLimitedEdition :=
            if (if pyGet cs "isLimitedEdition" = .null then pyGet prod "isLimitedEdition"
                else pyGet cs "isLimitedEdition") = .null then .str ""
            else .bool (truthy (if pyGet cs "isLimitedEdition" = .null
              then pyGet prod "isLimitedEdition" else pyGet cs "isLimitedEdition")),
          isNew :=
            if (if pyGet cs "isNew" = .null then pyGet prod "isNew"
                else pyGet cs "isNew") = .null then .str ""
            else .bool (truthy (if pyGet cs "isNew" = .null
              then pyGet prod "isNew" else pyGet cs "isNew")),
          listPrice := pyOr (pyOr (pyGet cs "listPrice") (pyGet prod "listPrice")) (.str ""),
          heroImage := pyOr (pyOr (pyOr (pyGet prod "heroImage") (pyGet prod "image"))
            (pyGet prod "mainImage")) (.str ""),
          targetUrl := pyOr (pyOr (pyGet prod "targetUrl") (pyGet prod "productUrl")) (.str ""),
          rating := pyOr (pyGet prod "rating") (.str ""),
          reviews := pyOr (pyGet prod "reviews") (.str "") }

/-- normalize_and_extract (lines 98-132): dispatch on `current`.  If
`prod.get("currentSku") or {}` is a truthy non-dict, the first
`current.get(...)` (line 106) raises AttributeError. -/
def normalize_and_extract (prod : List (String × JsonVal)) : Except String ListingRow :=
  match currentOf prod with
  | .obj cs => normalizeWith prod cs
  | _ => .error "AttributeError"

theorem normalize_eq_with (prod cs : List (String × JsonVal))
    (hc : currentOf prod = .obj cs) :
    normalize_and_extract prod = normalizeWith prod cs := by
  unfold normalize_and_extract
  rw [hc]

/-- Field values of a successfully normalized row, read off the record
literal. -/
theorem normalizeWith_ok (prod cs : List (String × JsonVal)) (row : ListingRow)
    (hrow : normalizeWith prod cs = .ok row) :
    row.imageAltText = pyOr (pyOr (pyOr (pyGet cs "imageAltText")
        (pyGet prod "imageAltText")) (pyGet prod "altImage")) (.str "")
    ∧ row.isLimitedEdition =
        (if (if pyGet cs "isLimitedEdition" = .null then pyGet prod "isLimitedEdition"
             else pyGet cs "isLimitedEdition") = .null then .str ""
         else .bool (truthy (if pyGet cs "isLimitedEdition" = .null
           then pyGet prod "isLimitedEdition" else pyGet cs "isLimitedEdition")))
    ∧ row.isNew =
        (if (if pyGet cs "isNew" = .null then pyGet prod "isNew"
             else pyGet cs "isNew") = .null then .str ""
         else .bool (truthy (if pyGet cs "isNew" = .null
           then pyGet prod "isNew" else pyGet cs "isNew")))
    ∧ row.listPrice = pyOr (pyOr (pyGet cs "listPrice") (pyGet prod "listPrice")) (.str "")
    ∧ row.heroImage = pyOr (pyOr (pyOr (pyGet prod "heroImage") (pyGet prod "image"))
        (pyGet prod "mainImage")) (.str "")
    ∧ row.targetUrl = pyOr (pyOr (pyGet prod "targetUrl") (pyGet prod "productUrl")) (.str "") := by
  unfold normalizeWith at hrow
  split at hrow
  · exact Except.noConfusion hrow
  · injection hrow with h
    subst h
    exact ⟨rfl, rfl, rfl, rfl, rfl, rfl⟩

-- spec section 8 scenario sanity check
example :
    (normalize_and_extract
      [("productId", .str "123"), ("brandName", .str "Acme"),
       ("displayName", .str "Rose"),
       ("currentSku", .obj [("listPrice", .str "$10")])]).map
      (fun r => (r.productId, r.brandName, r.displayName, r.listPrice, r.isLimitedEdition))
    = .ok (.str "123", .str "Acme", .str "Rose", .str "$10", .str "") := rfl

/-- C2 is wrong about the code: an object that passes the product-like
filter with only a productId reaches normalize_and_extract, whose
displayName fallback evaluates None + " " and raises TypeError, so
normalization is not total and the missing string fields are never
defaulted.  (The loop in main has no per-item try, so this aborts the
whole batch.) -/
theorem c2_normalize_raises :
    productLike [("productId", JsonVal.str "123")] = true
    ∧ normalize_and_extract [("productId", JsonVal.str "123")] = .error "TypeError" :=
  ⟨rfl, rfl⟩

/-- heroImage present both at top level and under currentSku with
different non-empty values. -/
def c3CexProd : List (String × JsonVal) :=
  [("brandName", .str "Acme"), ("heroImage", .str "top.jpg"),
   ("currentSku", .obj [("heroImage", .str "nested.jpg")])]

/-- Counterexample to C3 as stated: heroImage is a canonical field of
the normalizer, it is present under currentSku ("nested.jpg") and at
top level ("top.jpg") with different non-empty values, yet the
normalizer emits the top-level value - heroImage is resolved from the
top level only (line 116 never consults currentSku). -/
theorem c3_counterexample_test :
    pyGet [("heroImage", JsonVal.str "nested.jpg")] "heroImage" = .str "nested.jpg"
    ∧ currentOf c3CexProd = .obj [("heroImage", JsonVal.str "nested.jpg")]
    ∧ (normalize_and_extract c3CexProd).map (fun r => r.heroImage)
        = .ok (.str "top.jpg")
    ∧ JsonVal.str "top.jpg" ≠ JsonVal.str "nested.jpg" :=
  ⟨rfl, rfl, rfl, by decide⟩

/-- C3 (amended): the currentSku-before-top-level preference holds
exactly for the four fields the code resolves through `current`:
imageAltText, isLimitedEdition, isNew and listPrice.  For those, a
non-empty (respectively non-null) nested value is always chosen, no
matter what sits at the top level; the remaining canonical fields are
resolved from the top level only. -/
theorem c3_currentSku_first (prod cs : List (String × JsonVal)) (row : ListingRow)
    (hc : currentOf prod = .obj cs)
    (hrow : normalize_and_extract prod = .ok row) :
    (∀ s : String, s ≠ "" → pyGet cs "imageAltText" = .str s → row.imageAltText = .str s)
    ∧ (∀ v, pyGet cs "isLimitedEdition" = v → v ≠ .null →
        row.isLimitedEdition = .bool (truthy v))
    ∧ (∀ v, pyGet cs "isNew" = v → v ≠ .null → row.isNew = .bool (truthy v))
    ∧ (∀ s : String, s ≠ "" → pyGet cs "listPrice" = .str s → row.listPrice = .str s) := by
  rw [normalize_eq_with prod cs hc] at hrow
  obtain ⟨h1, h2, h3, h4, h5, h6⟩ := normalizeWith_ok prod cs row hrow
  refine ⟨?_, ?_, ?_, ?_⟩
  · intro s hs hv
    rw [h1, hv]
    simp [pyOr, truthy, hs]
  · intro v hv hne
    rw [h2, hv, if_neg hne, if_neg hne]
  · intro v hv hne
    rw [h3, hv, if_neg hne, if_neg hne]
  · intro s hs hv
    rw [h4, hv]
    simp [pyOr, truthy, hs]

def c3Wprod : List (String × JsonVal) :=
  [("displayName", .str "D"),
   ("currentSku", .obj [("imageAltText", .str "ia"), ("isLimitedEdition", .bool false),
     ("isNew", .bool true), ("listPrice", .str "$10")]),
   ("imageAltText", .str "other"), ("listPrice", .str "$99")]

def c3Wcs : List (String × JsonVal) :=
  [("imageAltText", .str "ia"), ("isLimitedEdition", .bool false),
   ("isNew", .bool true), ("listPrice", .str "$10")]

def c3Wrow : ListingRow :=
  ⟨.str "", .str "D", .str "", .str "ia", .bool false, .bool true, .str "$10",
   .str "", .str "", .str "", .str ""⟩

/-- Witness for C3 (amended) on a concrete candidate carrying all four
nested fields plus conflicting top-level values. -/
theorem c3_currentSku_first_witness :
    normalize_and_extract c3Wprod = Except.ok c3Wrow
    ∧ c3Wrow.imageAltText = .str "ia"
    ∧ c3Wrow.isLimitedEdition = .bool false
    ∧ c3Wrow.isNew = .bool true
    ∧ c3Wrow.listPrice = .str "$10" := by
  have h := c3_currentSku_first c3Wprod c3Wcs c3Wrow rfl rfl
  exact ⟨rfl, h.1 "ia" (by decide) rfl, h.2.1 (.bool false) rfl (by decide),
    h.2.2.1 (.bool true) rfl (by decide), h.2.2.2 "$10" (by decide) rfl⟩

/-- C6: the two boolean-like fields are tri-state.  A boolean under
currentSku is coerced to itself (including False, which is not None and
therefore not overridden); with currentSku absent or null, a top-level
boolean is used; with both levels absent or null the field renders as
the empty "unknown" marker, never as false. -/
theorem c6_tristate_booleans (prod cs : List (String × JsonVal)) (row : ListingRow)
    (hc : currentOf prod = .obj cs)
    (hrow : normalize_and_extract prod = .ok row) :
    (∀ b, pyGet cs "isLimitedEdition" = .bool b → row.isLimitedEdition = .bool b)
    ∧ (∀ b, pyGet cs "isLimitedEdition" = .null → pyGet prod "isLimitedEdition" = .bool b →
        row.isLimitedEdition = .bool b)
    ∧ (pyGet cs "isLimitedEdition" = .null → pyGet prod "isLimitedEdition" = .null →
        row.isLimitedEdition = .str "")
    ∧ (∀ b, pyGet cs "isNew" = .bool b → row.isNew = .bool b)
    ∧ (∀ b, pyGet cs "isNew" = .null → pyGet prod "isNew" = .bool b → row.isNew = .bool b)
    ∧ (pyGet cs "isNew" = .null → pyGet prod "isNew" = .null → row.isNew = .str "") := by
  rw [normalize_eq_with prod cs hc] at hrow
  obtain ⟨h1, h2, h3, h4, h5, h6⟩ := normalizeWith_ok prod cs row hrow
  refine ⟨?_, ?_, ?_, ?_, ?_, ?_⟩
  · intro b hv
    rw [h2, hv]
    simp [truthy]
  · intro b hcs hp
    rw [h2, hcs, hp]
    simp [truthy]
  · intro hcs hp
    rw [h2, hcs, hp]
    simp
  · intro b hv
    rw [h3, hv]
    simp [truthy]
  · intro b hcs hp
    rw [h3, hcs, hp]
    simp [truthy]
  · intro hcs hp
    rw [h3, hcs, hp]
    simp

def c6Wprod : List (String × JsonVal) :=
  [("displayName", .str "D"),
   ("currentSku", .obj [("isLimitedEdition", .bool false)]),
   ("isLimitedEdition", .bool true)]

def c6Wrow : ListingRow :=
  ⟨.str "", .str "D", .str "", .str "", .bool false, .str "", .str "",
   .str "", .str "", .str "", .str ""⟩

/-- Witness for C6: nested False wins over top-level True, and a fully
absent isNew renders as the empty marker. -/
theorem c6_tristate_booleans_witness :
    normalize_and_extract c6Wprod = Except.ok c6Wrow
    ∧ c6Wrow.isLimitedEdition = .bool false
    ∧ c6Wrow.isNew = .str "" := by
  have h := c6_tristate_booleans c6Wprod [("isLimitedEdition", JsonVal.bool false)] c6Wrow rfl rfl
  exact ⟨rfl, h.1 false rfl, h.2.2.2.2.2 rfl rfl⟩

/-- C10: non-boolean non-null values are coerced by Python truthiness,
not parsed: any non-empty string (including "false") gives true, the
empty string or 0 gives false, and the empty "unknown" marker appears
only when the value is null or absent at both levels. -/
theorem c10_truthiness_coercion (prod cs : List (String × JsonVal)) (row : ListingRow)
    (hc : currentOf prod = .obj cs)
    (hrow : normalize_and_extract prod = .ok row) :
    (∀ s : String, s ≠ "" → pyGet cs "isLimitedEdition" = .str s →
        row.isLimitedEdition = .bool true)
    ∧ (∀ s : String, s ≠ "" → pyGet cs "isLimitedEdition" = .null →
        pyGet prod "isLimitedEdition" = .str s → row.isLimitedEdition = .bool true)
    ∧ (pyGet cs "isLimitedEdition" = .str "" → row.isLimitedEdition = .bool false)
    ∧ (pyGet cs "isLimitedEdition" = .num 0 → row.isLimitedEdition = .bool false)
    ∧ (row.isLimitedEdition = .str "" →
        pyGet cs "isLimitedEdition" = .null ∧ pyGet prod "isLimitedEdition" = .null)
    ∧ (∀ s : String, s ≠ "" → pyGet cs "isNew" = .str s → row.isNew = .bool true)
    ∧ (pyGet cs "isNew" = .str "" → row.isNew = .bool false)
    ∧ (row.isNew = .str "" → pyGet cs "isNew" = .null ∧ pyGet prod "isNew" = .null) := by
  rw [normalize_eq_with prod cs hc] at hrow
  obtain ⟨h1, h2, h3, h4, h5, h6⟩ := normalizeWith_ok prod cs row hrow
  refine ⟨?_, ?_, ?_, ?_, ?_, ?_, ?_, ?_⟩
  · intro s hs hv
    rw [h2, hv]
    simp [truthy, hs]
  · intro s hs hcs hp
    rw [h2, hcs, hp]
    simp [truthy, hs]
  · intro hv
    rw [h2, hv]
    simp [truthy]
  · intro hv
    rw [h2, hv]
    simp [truthy]
  · intro hstr
    rw [h2] at hstr
    by_cases hcs : pyGet cs "isLimitedEdition" = .null
    · rw [hcs] at hstr
      simp only [if_pos] at hstr
      split at hstr
      · exact ⟨hcs, by assumption⟩
      · exact absurd hstr (by simp)
    · rw [if_neg hcs] at hstr
      rw [if_neg hcs] at hstr
      exact absurd hstr (by simp)
  · intro s hs hv
    rw [h3, hv]
    simp [truthy, hs]
  · intro hv
    rw [h3, hv]
    simp [truthy]
  · intro hstr
    rw [h3] at hstr
    by_cases hcs : pyGet cs "isNew" = .null
    · rw [hcs] at hstr
      simp only [if_pos] at hstr
      split at hstr
      · exact ⟨hcs, by assumption⟩
      · exact absurd hstr (by simp)
    · rw [if_neg hcs] at hstr
      rw [if_neg hcs] at hstr
      exact absurd hstr (by simp)

def c10Wprod : List (String × JsonVal) :=
  [("displayName", .str "D"),
   ("currentSku", .obj [("isLimitedEdition", .str "false"), ("isNew", .str "")])]

def c10Wrow : ListingRow :=
  ⟨.str "", .str "D", .str "", .str "", .bool true, .bool false, .str "",
   .str "", .str "", .str "", .str ""⟩

/-- Witness for C10: nested isLimitedEdition "false" coerces to true,
nested isNew "" coerces to false. -/
theorem c10_truthiness_coercion_witness :
    normalize_and_extract c10Wprod = Except.ok c10Wrow
    ∧ c10Wrow.isLimitedEdition = .bool true
    ∧ c10Wrow.isNew = .bool false := by
  have h := c10_truthiness_coercion c10Wprod
    [("isLimitedEdition", JsonVal.str "false"), ("isNew", JsonVal.str "")] c10Wrow rfl rfl
  exact ⟨rfl, h.1 "false" (by decide) rfl, h.2.2.2.2.2.2.1 rfl⟩

/-!
## Deduplicator

parse_sephora_listing.py, main loop lines 178-188: normalized rows are
kept when their derived key is truthy and not yet in the `seen` set.
The Python set is modelled as the list of keys added so far (only
membership is used).
-/

/-- DedupKey (line 185):
`row.get("productId") or row.get("targetUrl") or row.get("displayName")`. -/
def ukey (r : ListingRow) : JsonVal :=
  pyOr (pyOr r.productId r.targetUrl) r.displayName

/-- The dedup part of the main loop: keep a row iff its key is truthy
and unseen, then add the key to `seen`. -/
def dedupRun (seen : List JsonVal) : List ListingRow → List ListingRow
  | [] => []
  | r :: rs =>
    if truthy (ukey r) = true ∧ ukey r ∉ seen then
      r :: dedupRun (ukey r :: seen) rs
    else
      dedupRun seen rs

/-- Restatement following the spec's words, for comparison: a record is
kept iff its DedupKey is non-empty and has not occurred earlier in the
sequence (`prev` holds all earlier records, kept or not). -/
def dedupSpecAux (prev : List ListingRow) : List ListingRow → List ListingRow
  | [] => []
  | r :: rs =>
    if truthy (ukey r) = true ∧ ukey r ∉ prev.map ukey then
      r :: dedupSpecAux (prev ++ [r]) rs
    else
      dedupSpecAux (prev ++ [r]) rs

def dedupSpec (rows : List ListingRow) : List ListingRow := dedupSpecAux [] rows

/-- The seen-set run agrees with the earlier-occurrence reading: the
invariant is that `seen` holds exactly the truthy keys of the processed
prefix. -/
theorem dedupRun_eq_specAux (rows : List ListingRow) :
    ∀ (seen : List JsonVal) (prev : List ListingRow),
      (∀ k, k ∈ seen ↔ (truthy k = true ∧ k ∈ prev.map ukey)) →
      dedupRun seen rows = dedupSpecAux prev rows := by
  induction rows with
  | nil => intro seen prev _; rfl
  | cons r rs ih =>
    intro seen prev hinv
    by_cases hk : truthy (ukey r) = true ∧ ukey r ∉ seen
    · have hk2 : truthy (ukey r) = true ∧ ukey r ∉ prev.map ukey := by
        refine ⟨hk.1, fun hp => hk.2 ((hinv (ukey r)).2 ⟨hk.1, hp⟩)⟩
      rw [dedupRun, dedupSpecAux, if_pos hk, if_pos hk2]
      refine congrArg _ (ih (ukey r :: seen) (prev ++ [r]) ?_)
      intro k
      by_cases hku : k = ukey r
      · subst hku
        simp [hk.1]
      · simp [hku, hinv k]
    · have hk2 : ¬(truthy (ukey r) = true ∧ ukey r ∉ prev.map ukey) := by
        intro hc
        refine hk ⟨hc.1, fun hs => hc.2 ?_⟩
        exact ((hinv (ukey r)).1 hs).2
      rw [dedupRun, dedupSpecAux, if_neg hk, if_neg hk2]
      refine ih seen (prev ++ [r]) ?_
      intro k
      by_cases hku : k = ukey r
      · subst hku
        constructor
        · intro hks
          have h2 := (hinv _).1 hks
          exact ⟨h2.1, by simp [h2.2]⟩
        · rintro ⟨ht, -⟩
          by_contra hns
          exact hk ⟨ht, hns⟩
      · simp [hku, hinv k]
  
theorem dedupRun_mem_truthy (rows : List ListingRow) :
    ∀ (seen : List JsonVal) (r : ListingRow), r ∈ dedupRun seen rows →
      truthy (ukey r) = true := by
  induction rows with
  | nil => intro seen r h; simp [dedupRun] at h
  | cons x rs ih =>
    intro seen r h
    rw [dedupRun] at h
    split at h
    · rcases List.mem_cons.mp h with rfl | hm
      · exact (by assumption : truthy (ukey r) = true ∧ _).1
      · exact ih _ r hm
    · exact ih _ r h

theorem dedupRun_keys_nodup (rows : List ListingRow) :
    ∀ (seen : List JsonVal),
      ((dedupRun seen rows).map ukey).Nodup
      ∧ ∀ k, k ∈ (dedupRun seen rows).map ukey → k ∉ seen := by
  induction rows with
  | nil => intro seen; simp [dedupRun]
  | cons r rs ih =>
    intro seen
    rw [dedupRun]
    split
    · rename_i hk
      simp only [List.map_cons, List.nodup_cons]
      refine ⟨⟨?_, (ih (ukey r :: seen)).1⟩, ?_⟩
      · intro hmem
        exact absurd (List.mem_cons_self _ _) ((ih (ukey r :: seen)).2 _ hmem)
      · intro k hmem
        rcases List.mem_cons.mp hmem with rfl | hm
        · exact hk.2
        · intro hs
          exact (ih (ukey r :: seen)).2 k hm (List.mem_cons_of_mem _ hs)
    · exact ih seen

/-- C7: a record is kept iff its DedupKey is truthy (non-empty) and has
not occurred earlier in the sequence (dedupRun equals the spec-side
first-occurrence filter); every kept record has a truthy key, kept keys
are pairwise distinct (so of two records sharing a non-empty key exactly
the first survives), and a record whose three identity fields are all
empty is always dropped.  The function is total, so no error is raised. -/
theorem c7_dedup_first_wins (rows : List ListingRow) :
    dedupRun [] rows = dedupSpec rows
    ∧ (∀ r ∈ dedupRun [] rows, truthy (ukey r) = true)
    ∧ ((dedupRun [] rows).map ukey).Nodup
    ∧ (∀ r : ListingRow, r.productId = .str "" → r.targetUrl = .str "" →
        r.displayName = .str "" → r ∉ dedupRun [] rows) := by
  refine ⟨dedupRun_eq_specAux rows [] [] (by simp), ?_, (dedupRun_keys_nodup rows []).1, ?_⟩
  · intro r hr
    exact dedupRun_mem_truthy rows [] r hr
  · intro r h1 h2 h3 hmem
    have ht := dedupRun_mem_truthy rows [] r hmem
    rw [ukey, h1, h2, h3] at ht
    simp [pyOr, truthy] at ht

def c7RowA : ListingRow :=
  ⟨.str "k", .str "A", .str "", .str "", .str "", .str "", .str "",
   .str "", .str "", .str "", .str ""⟩

def c7RowB : ListingRow :=
  ⟨.str "k", .str "B", .str "", .str "", .str "", .str "", .str "",
   .str "", .str "", .str "", .str ""⟩

def c7RowEmpty : ListingRow :=
  ⟨.str "", .str "", .str "", .str "", .str "", .str "", .str "",
   .str "", .str "", .str "", .str ""⟩

/-- Witness for C7: two rows sharing key "k" keep only the first; the
all-empty row is dropped. -/
theorem c7_dedup_first_wins_witness :
    dedupRun [] [c7RowA, c7RowB, c7RowEmpty] = [c7RowA]
    ∧ dedupRun [] [c7RowA, c7RowB, c7RowEmpty]
        = dedupSpec [c7RowA, c7RowB, c7RowEmpty]
    ∧ c7RowEmpty ∉ dedupRun [] [c7RowA, c7RowB, c7RowEmpty] := by
  have h := c7_dedup_first_wins [c7RowA, c7RowB, c7RowEmpty]
  exact ⟨by decide, h.1, h.2.2.2 c7RowEmpty rfl rfl rfl⟩

/-!
## Resumable store (page pipeline) and the listing pipeline's writer

sephora_perfume_scraper.py: load_existing_csv (lines 250-257) builds a
dict keyed by product_page_url, the main loop (lines 293-332) skips any
product link already keyed and appends each new row with save_row
(mode "a", lines 259-266); extract_listing_product_links deduplicates
the links preserving order (lines 97-103) and `args.max` truncates
(line 284-285; Python truthiness, so max=0 means no truncation).  The
output file is modelled as the list of its rows; everything done to one
product (fetch, parse, image downloads) is the external `process`.
-/

/-- A row of the page-pipeline output file: the primary key column
product_page_url plus the remaining columns. -/
structure PageRow (a : Type) where
  product_page_url : String
  payload : a
deriving DecidableEq

/-- The key index built by load_existing_csv at startup; only
membership of `prod_url in existing` is ever used. -/
def load_existing_keys {a : Type} (file : List (PageRow a)) : List String :=
  file.map (fun r => r.product_page_url)

/-- Order-preserving dedup of the product links (lines 97-103). -/
def dedupOrderAux (seen : List String) : List String → List String
  | [] => []
  | u :: us => if u ∈ seen then dedupOrderAux seen us
               else u :: dedupOrderAux (u :: seen) us

/-- The main product loop (lines 293-332): skip a link whose key is
already indexed (the index is loaded once and not updated during the
run), otherwise append one row whose primary key is the link itself
(line 322). -/
def scraperLoop {a : Type} (process : String → a) (existingKeys : List String)
    (file : List (PageRow a)) : List String → List (PageRow a)
  | [] => file
  | url :: rest =>
    if url ∈ existingKeys then
      scraperLoop process existingKeys file rest
    else
      scraperLoop process existingKeys (file ++ [⟨url, process url⟩]) rest

/-- product_links after dedup and the optional `--max` truncation. -/
def linksOf (rawLinks : List String) (maxN : Option Nat) : List String :=
  match maxN with
  | some n => if n ≠ 0 then (dedupOrderAux [] rawLinks).take n
              else dedupOrderAux [] rawLinks
  | none => dedupOrderAux [] rawLinks

/-- One run of the page pipeline against an existing output file. -/
def runScraper {a : Type} (process : String → a) (existingFile : List (PageRow a))
    (rawLinks : List String) (maxN : Option Nat) : List (PageRow a) :=
  scraperLoop process (load_existing_keys existingFile) existingFile
    (linksOf rawLinks maxN)

theorem scraperLoop_spec {a : Type} (process : String → a) (ek : List String)
    (links : List String) :
    ∀ file, scraperLoop process ek file links
      = file ++ (links.filter (fun u => u ∉ ek)).map (fun u => ⟨u, process u⟩) := by
  induction links with
  | nil => intro file; simp [scraperLoop]
  | cons u us ih =>
    intro file
    by_cases hu : u ∈ ek
    · rw [scraperLoop, if_pos hu, ih]
      simp [hu]
    · rw [scraperLoop, if_neg hu, ih]
      simp [hu]

theorem dedupOrderAux_nodup (l : List String) :
    ∀ seen, (dedupOrderAux seen l).Nodup
      ∧ ∀ u ∈ dedupOrderAux seen l, u ∉ seen := by
  induction l with
  | nil => intro seen; simp [dedupOrderAux]
  | cons u us ih =>
    intro seen
    rw [dedupOrderAux]
    split
    · rename_i hu
      exact ⟨(ih seen).1, fun v hv => (ih seen).2 v hv⟩
    · rename_i hu
      refine ⟨List.nodup_cons.mpr ⟨?_, (ih (u :: seen)).1⟩, ?_⟩
      · intro hmem
        exact absurd (List.mem_cons_self _ _) ((ih (u :: seen)).2 u hmem)
      · intro v hv
        rcases List.mem_cons.mp hv with rfl | hm
        · exact hu
        · intro hs
          exact (ih (u :: seen)).2 v hm (List.mem_cons_of_mem _ hs)

theorem linksOf_nodup (rawLinks : List String) (maxN : Option Nat) :
    (linksOf rawLinks maxN).Nodup := by
  have hbase := (dedupOrderAux_nodup rawLinks []).1
  cases maxN with
  | none => exact hbase
  | some n =>
    simp only [linksOf]
    split
    · exact hbase.sublist (List.take_sublist n _)
    · exact hbase

/-- C1 (amended, page pipeline): a run loads all primary keys of the
existing file, skips every input whose key is indexed, and only appends:
the old rows form an unchanged prefix of the new file, every appended
row's key was not indexed, and when the existing keys are pairwise
distinct the final file has no duplicate primary key. -/
theorem c1_page_store_resumable {a : Type} (process : String → a)
    (existingFile : List (PageRow a)) (rawLinks : List String) (maxN : Option Nat) :
    (∃ newRows, runScraper process existingFile rawLinks maxN = existingFile ++ newRows
      ∧ ∀ r ∈ newRows, r.product_page_url ∉ load_existing_keys existingFile)
    ∧ ((load_existing_keys existingFile).Nodup →
        (load_existing_keys (runScraper process existingFile rawLinks maxN)).Nodup) := by
  have hrun : runScraper process existingFile rawLinks maxN
      = existingFile ++ ((linksOf rawLinks maxN).filter
          (fun u => u ∉ load_existing_keys existingFile)).map
          (fun u => ⟨u, process u⟩) :=
    scraperLoop_spec process (load_existing_keys existingFile)
      (linksOf rawLinks maxN) existingFile
  constructor
  · refine ⟨_, hrun, ?_⟩
    intro r hr
    simp only [List.mem_map, List.mem_filter] at hr
    obtain ⟨u, ⟨hu1, hu2⟩, rfl⟩ := hr
    have hnot : u ∉ load_existing_keys existingFile := by simpa using hu2
    exact hnot
  · intro hek
    rw [hrun, load_existing_keys, List.map_append, List.nodup_append]
    refine ⟨hek, ?_, ?_⟩
    · rw [List.map_map]
      have hmapid : (List.map ((fun r => r.product_page_url) ∘
          (fun u => (⟨u, process u⟩ : PageRow a)))
          ((linksOf rawLinks maxN).filter
            (fun u => u ∉ load_existing_keys existingFile)))
          = (linksOf rawLinks maxN).filter
              (fun u => u ∉ load_existing_keys existingFile) :=
        List.map_id _
      rw [hmapid]
      exact (linksOf_nodup rawLinks maxN).filter _
    · intro k hk1 hk2
      simp only [List.map_map, List.mem_map, List.mem_filter, Function.comp] at hk2
      obtain ⟨u, ⟨hu1, hu2⟩, rfl⟩ := hk2
      have hnot : u ∉ load_existing_keys existingFile := by simpa using hu2
      exact hnot hk1

/-- Witness for C1 on a concrete run: link u1 is skipped (already
persisted), u2 is appended once though it occurs twice. -/
theorem c1_page_store_resumable_witness :
    runScraper (fun _ => 0) [⟨"u1", 0⟩] ["u1", "u2", "u2"] none
      = [⟨"u1", 0⟩, ⟨"u2", 0⟩]
    ∧ (load_existing_keys (runScraper (fun _ => (0 : Nat)) [⟨"u1", 0⟩]
        ["u1", "u2", "u2"] none)).Nodup := by
  have h := c1_page_store_resumable (fun _ => (0 : Nat)) [⟨"u1", 0⟩]
    ["u1", "u2", "u2"] none
  exact ⟨rfl, h.2 (by decide)⟩

/-- parse_sephora_listing.py lines 194-209: the listing pipeline
persists with `open(args.out, "w")` - mode "w" truncates, so the file
afterwards holds exactly this run's rows; the script never reads a
pre-existing output. -/
def writeListingCsv (_prevContents rows : List ListingRow) : List ListingRow :=
  rows

def c1PrevRow : ListingRow :=
  ⟨.str "p1", .str "Old", .str "", .str "", .str "", .str "", .str "",
   .str "", .str "", .str "", .str ""⟩

def c1NewRow : ListingRow :=
  ⟨.str "p2", .str "New", .str "", .str "", .str "", .str "", .str "",
   .str "", .str "", .str "", .str ""⟩

/-- Counterexample to C1 as stated: the claim covers both pipeline
variants, but the listing variant deletes the rows of earlier runs -
a previously written row is gone from the new file. -/
theorem c1_page_store_resumable_counterexample :
    writeListingCsv [c1PrevRow] [c1NewRow] = [c1NewRow]
    ∧ c1PrevRow ∉ writeListingCsv [c1PrevRow] [c1NewRow] :=
  ⟨rfl, by decide⟩

/-!
## Image cache

parse_sephora_listing.py download_image (lines 134-153) and
sephora_perfume_scraper.py download_image (lines 227-248).  The disk
directory is modelled as the list of filenames present; the network is
the predicate netOk.  CPython's builtin str hash is salted per process
(PYTHONHASHSEED), so `abs(hash(url))` is modelled as a function
parameter hashAbs that may differ between runs; `urlparse(url).path`
is likewise a parameter.  Each call returns (result, new directory
state, number of network requests made).
-/

/-- os.path.basename: the part after the last '/'. -/
def basenameAux : List Char → List Char → List Char
  | acc, [] => acc
  | acc, c :: rest =>
    if c = '/' then basenameAux [] rest else basenameAux (acc ++ [c]) rest

def basename (s : String) : String := String.mk (basenameAux [] s.data)

def beforeQuery (url : String) : String :=
  String.mk (url.data.takeWhile (fun c => c ≠ '?'))

/-- Listing variant, lines 139-141: basename of url.split("?")[0], or
the hash-derived fallback "img_" + str(abs(hash(url))) + ".jpg". -/
def listing_local_name (hashAbs : String → Nat) (url : String) : String :=
  if basename (beforeQuery url) = "" then
    "img_" ++ toString (hashAbs url) ++ ".jpg"
  else
    basename (beforeQuery url)

/-- Python regex \\w (ASCII approximation). -/
def isWordChar (c : Char) : Bool := c.isAlphanum || c = '_'

/-- re.sub(r'\\W+', '_', url): each run of non-word characters becomes
one underscore. -/
def squashAux (prevNon : Bool) : List Char → List Char
  | [] => []
  | c :: rest =>
    if isWordChar c then c :: squashAux false rest
    else if prevNon then squashAux true rest
    else '_' :: squashAux true rest

def reSubNonWord (s : String) : String := String.mk (squashAux false s.data)

/-- Page variant, lines 229-232: basename of urlparse(url).path, or the
sanitized url truncated to 40 characters. -/
def scraper_local_name (urlPath : String → String) (url : String) : String :=
  if basename (urlPath url) = "" then (reSubNonWord url).take 40
  else basename (urlPath url)

/-- The image directory: the set of filenames that exist. -/
structure ImgCache where
  files : List String
deriving DecidableEq

/-- Listing download_image: empty url returns "" with no request;
an existing file is returned with no request; otherwise one request is
made, creating the file on success and returning "" on failure. -/
def download_image_listing (hashAbs : String → Nat) (netOk : String → Bool)
    (dest : String) (url : String) (st : ImgCache) : String × ImgCache × Nat :=
  if url = "" then ("", st, 0)
  else
    if listing_local_name hashAbs url ∈ st.files then
      (dest ++ "/" ++ listing_local_name hashAbs url, st, 0)
    else if netOk url then
      (dest ++ "/" ++ listing_local_name hashAbs url,
       ⟨listing_local_name hashAbs url :: st.files⟩, 1)
    else ("", st, 1)

/-- Page download_image: same structure, without the empty-url guard,
returning None on failure. -/
def download_image_page (urlPath : String → String) (netOk : String → Bool)
    (dest : String) (url : String) (st : ImgCache) : Option String × ImgCache × Nat :=
  if scraper_local_name urlPath url ∈ st.files then
    (some (dest ++ "/" ++ scraper_local_name urlPath url), st, 0)
  else if netOk url then
    (some (dest ++ "/" ++ scraper_local_name urlPath url),
     ⟨scraper_local_name urlPath url :: st.files⟩, 1)
  else (none, st, 1)

/-- C8 (amended): within a run both caches are idempotent - after any
first request for a url (at most one network request), a second request
for the same url returns the same local path with zero network
requests; the page variant's derived name is a pure function of the
url, and the listing variant's is independent of the process hash seed
whenever the url's path yields a usable basename; a filename persisted
by an earlier run short-circuits to zero requests.  (The unamended
claim fails for the listing variant's hash fallback across runs, see
the counterexample.) -/
theorem c8_image_cache_idempotent (hashAbs : String → Nat) (netOk : String → Bool)
    (urlPath : String → String) (dest url : String) (st : ImgCache) :
    (url ≠ "" → netOk url = true →
      ∀ path st2 n1, download_image_listing hashAbs netOk dest url st = (path, st2, n1) →
        n1 ≤ 1 ∧ download_image_listing hashAbs netOk dest url st2 = (path, st2, 0))
    ∧ (netOk url = true →
      ∀ res st2 n1, download_image_page urlPath netOk dest url st = (res, st2, n1) →
        n1 ≤ 1 ∧ download_image_page urlPath netOk dest url st2 = (res, st2, 0))
    ∧ (∀ h2 : String → Nat, basename (beforeQuery url) ≠ "" →
        listing_local_name hashAbs url = listing_local_name h2 url)
    ∧ (scraper_local_name urlPath url ∈ st.files →
        download_image_page urlPath netOk dest url st
          = (some (dest ++ "/" ++ scraper_local_name urlPath url), st, 0)) := by
  refine ⟨?_, ?_, ?_, ?_⟩
  · intro hu hn path st2 n1 heq
    by_cases hmem : listing_local_name hashAbs url ∈ st.files
    · rw [download_image_listing, if_neg hu, if_pos hmem] at heq
      simp only [Prod.mk.injEq] at heq
      obtain ⟨rfl, rfl, rfl⟩ := heq
      refine ⟨by norm_num, ?_⟩
      rw [download_image_listing, if_neg hu, if_pos hmem]
    · rw [download_image_listing, if_neg hu, if_neg hmem, if_pos hn] at heq
      simp only [Prod.mk.injEq] at heq
      obtain ⟨rfl, rfl, rfl⟩ := heq
      refine ⟨by norm_num, ?_⟩
      rw [download_image_listing, if_neg hu, if_pos (List.mem_cons_self _ _)]
  · intro hn res st2 n1 heq
    by_cases hmem : scraper_local_name urlPath url ∈ st.files
    · rw [download_image_page, if_pos hmem] at heq
      simp only [Prod.mk.injEq] at heq
      obtain ⟨rfl, rfl, rfl⟩ := heq
      refine ⟨by norm_num, ?_⟩
      rw [download_image_page, if_pos hmem]
    · rw [download_image_page, if_neg hmem, if_pos hn] at heq
      simp only [Prod.mk.injEq] at heq
      obtain ⟨rfl, rfl, rfl⟩ := heq
      refine ⟨by norm_num, ?_⟩
      rw [download_image_page, if_pos (List.mem_cons_self _ _)]
  · intro h2 hb
    rw [listing_local_name, listing_local_name, if_neg hb, if_neg hb]
  · intro hmem
    rw [download_image_page, if_pos hmem]

/-- Witness for C8: a second request for an already-downloaded image is
answered from the cache with zero network requests, in both variants,
and the listing name for a basename-bearing url ignores the hash
seed. -/
theorem c8_image_cache_idempotent_witness :
    download_image_listing (fun _ => 7) (fun _ => true) "images"
        "https://x.com/img/pic.jpg" ⟨["pic.jpg"]⟩
      = ("images/pic.jpg", ⟨["pic.jpg"]⟩, 0)
    ∧ listing_local_name (fun _ => 7) "https://x.com/img/pic.jpg"
        = listing_local_name (fun _ => 8) "https://x.com/img/pic.jpg"
    ∧ download_image_page (fun u => u) (fun _ => true) "images"
        "/img/pic.jpg" ⟨["pic.jpg"]⟩
      = (some "images/pic.jpg", ⟨["pic.jpg"]⟩, 0) := by
  have h := c8_image_cache_idempotent (fun _ => 7) (fun _ => true) (fun u => u)
    "images" "https://x.com/img/pic.jpg" ⟨[]⟩
  have h2 := c8_image_cache_idempotent (fun _ => 7) (fun _ => true) (fun u => u)
    "images" "/img/pic.jpg" (⟨["pic.jpg"]⟩ : ImgCache)
  exact ⟨(h.1 (by decide) rfl _ _ _ rfl).2, h.2.2.1 (fun _ => 8) (by decide),
    h2.2.2.2 (by decide)⟩

/-- Counterexample to C8 as stated: for a url whose path has no
basename the listing cache falls back to the salted builtin hash, which
is not a function of the URL alone - two runs with different hash seeds
(fun _ => 0 and fun _ => 1) derive different filenames and both make a
network download for the same URL. -/
theorem c8_image_cache_idempotent_counterexample :
    listing_local_name (fun _ => 0) "https://x.com/?a=1" = "img_0.jpg"
    ∧ listing_local_name (fun _ => 1) "https://x.com/?a=1" = "img_1.jpg"
    ∧ (download_image_listing (fun _ => 0) (fun _ => true) "images"
         "https://x.com/?a=1" ⟨[]⟩).2.2 = 1
    ∧ (download_image_listing (fun _ => 1) (fun _ => true) "images"
         "https://x.com/?a=1"
         (download_image_listing (fun _ => 0) (fun _ => true) "images"
           "https://x.com/?a=1" ⟨[]⟩).2.1).2.2 = 1 := by
  refine ⟨by decide, by decide, by decide, by decide⟩

/-!
## Product page image extraction

sephora_perfume_scraper.py, parse_product_page (lines 116-186), sliced
to the image_urls field.  A page is modelled as the parse results of
its ld+json scripts (none = json.loads failed), the og:image content,
and the gallery img tags with their three source attributes.  A script
whose processing raises anywhere before the images line (non-dict item
in a JSON-LD list, non-string @type, truthy non-dict offers - note
`offers.get("price")` runs before the isinstance list check, so list
offers raise too) contributes nothing, per the `except: continue`; the
aggregateRating steps sit in their own bare try/except and never
abort. -/

/-- Python str.lower(). -/
def strToLower (s : String) : String := String.mk (s.data.map Char.toLower)

def typeIsProduct (v : JsonVal) : Except Unit Bool :=
  match v with
  | .obj fs =>
    match pyGetD fs "@type" (.str "") with
    | .str s => .ok (strToLower s == "product")
    | _ => .error ()
  | _ => .error ()

/-- Lines 133-137: first item of a JSON-LD list whose @type is
product; an exception inside an earlier item aborts the script. -/
def findProduct : List JsonVal → Except Unit (Option JsonVal)
  | [] => .ok none
  | it :: rest => do
    let b ← typeIsProduct it
    if b then pure (some it) else findProduct rest

/-- Lines 141-143: only the exception behavior matters for the image
field. -/
def offersStep (fs : List (String × JsonVal)) : Except Unit Unit :=
  if truthy (pyGet fs "offers") then
    match pyGet fs "offers" with
    | .obj _ => .ok ()
    | _ => .error ()
  else .ok ()

/-- Image contribution of one ld+json script (lines 128-161): the
`image` value is extended as-is when it is a list (no dedup), appended
as one element otherwise. -/
def ldImagesOfScript (parsed : Option JsonVal) : List JsonVal :=
  match parsed with
  | none => []
  | some j0 =>
    match (do
      let j ← (match j0 with
        | .arr items => do
          match ← findProduct items with
          | some it => pure it
          | none => pure j0
        | _ => pure j0)
      match j with
      | .obj fs => do
        let tp ← typeIsProduct j
        if tp then do
          offersStep fs
          pure (if truthy (pyGet fs "image") then
                  match pyGet fs "image" with
                  | .arr xs => xs
                  | v => [v]
                else [])
        else pure []
      | _ => pure ([] : List JsonVal) : Except Unit (List JsonVal)) with
    | .ok xs => xs
    | .error _ => []

/-- One gallery img tag: src, data-src, data-ec-src attributes. -/
structure ImgTag where
  src : Option String
  dataSrc : Option String
  dataEcSrc : Option String

/-- Python `or` on attribute values (None or str, "" falsy). -/
def pyOrStr (a b : Option String) : Option String :=
  match a with
  | some s => if s ≠ "" then some s else b
  | none => b

def srcOf (t : ImgTag) : Option String :=
  pyOrStr (pyOrStr t.src t.dataSrc) t.dataEcSrc

/-- Python `needle in hay` on strings. -/
def hasSubstr (needle : List Char) : List Char → Bool
  | [] => needle.isEmpty
  | c :: rest => needle.isPrefixOf (c :: rest) || hasSubstr needle rest

structure PageDoc where
  ldScripts : List (Option JsonVal)
  ogImage : Option String
  imgTags : List ImgTag

/-- Lines 169-180: og:image content plus gallery srcs that are truthy
and free of "placeholder", absolutized against the base url. -/
def fallbackImgs (unionUrl : String → String → String) (baseUrl : String)
    (doc : PageDoc) : List String :=
  (match doc.ogImage with
   | some s => if s ≠ "" then [s] else []
   | none => []) ++
  doc.imgTags.filterMap (fun t =>
    match srcOf t with
    | some s =>
      if s ≠ "" ∧ hasSubstr "placeholder".data s.data = false then
        some (unionUrl baseUrl s)
      else none
    | none => none)

/-- Lines 182-185: order-preserving dedup of the fallback list, also
dropping falsy entries (`if u and u not in imgs_uniq`). -/
def dedupTruthyAux (uniq : List String) : List String → List String
  | [] => uniq
  | u :: us =>
    if u ≠ "" ∧ u ∉ uniq then dedupTruthyAux (uniq ++ [u]) us
    else dedupTruthyAux uniq us

def dedupTruthy (l : List String) : List String := dedupTruthyAux [] l

/-- image_urls as computed by parse_product_page: the JSON-LD
contributions, or - only when those are empty - the deduplicated
meta/DOM fallback. -/
def parse_product_page_imageUrls (unionUrl : String → String → String)
    (baseUrl : String) (doc : PageDoc) : List JsonVal :=
  if ((doc.ldScripts.map ldImagesOfScript).flatten).isEmpty then
    (doc.ldScripts.map ldImagesOfScript).flatten
      ++ (dedupTruthy (fallbackImgs unionUrl baseUrl doc)).map .str
  else
    (doc.ldScripts.map ldImagesOfScript).flatten

theorem dedupTruthyAux_nodup (l : List String) :
    ∀ uniq, uniq.Nodup → (dedupTruthyAux uniq l).Nodup := by
  induction l with
  | nil => intro uniq h; exact h
  | cons u us ih =>
    intro uniq h
    rw [dedupTruthyAux]
    split
    · rename_i hu
      refine ih _ ?_
      rw [List.nodup_append]
      exact ⟨h, List.nodup_singleton u, by
        intro x hx hx2
        rcases List.mem_singleton.mp hx2 with rfl
        exact hu.2 hx⟩
    · exact ih uniq h

/-- C9 (amended): imageUrls is duplicate-free whenever it comes from
the meta-tag/DOM fallback path (which deduplicates, and which only runs
when JSON-LD yielded nothing); URLs taken from JSON-LD structured data
are extended as-is and may repeat, so the unamended claim fails (see
the counterexample). -/
theorem c9_imageUrls_nodup (unionUrl : String → String → String)
    (baseUrl : String) (doc : PageDoc)
    (hld : (doc.ldScripts.map ldImagesOfScript).flatten = []) :
    (parse_product_page_imageUrls unionUrl baseUrl doc).Nodup := by
  rw [parse_product_page_imageUrls, hld]
  simp only [List.isEmpty_nil, if_pos, List.nil_append]
  refine List.Nodup.map ?_ (dedupTruthyAux_nodup _ [] List.nodup_nil)
  intro a b hab
  exact JsonVal.str.inj hab

def c9CexDoc : PageDoc :=
  ⟨[some (.obj [("@type", .str "Product"), ("image", .arr [.str "a", .str "a"])])],
   none, []⟩

/-- Counterexample to C9 as stated: a product JSON-LD script whose
image list repeats a URL yields imageUrls with a duplicate. -/
theorem c9_imageUrls_nodup_counterexample :
    parse_product_page_imageUrls (fun _ s => s) "b" c9CexDoc
      = [.str "a", .str "a"]
    ∧ ¬(parse_product_page_imageUrls (fun _ s => s) "b" c9CexDoc).Nodup :=
  ⟨rfl, by decide⟩

def c9WDoc : PageDoc :=
  ⟨[none, some (.num 3)], some "og.jpg",
   [⟨some "og.jpg", none, none⟩, ⟨none, some "g1.jpg", none⟩,
    ⟨some "placeholder.png", none, none⟩, ⟨some "", none, some "g1.jpg"⟩]⟩

/-- Witness for C9 (amended): failed and non-product scripts contribute
nothing, and the fallback (og:image plus gallery, with a placeholder
and a duplicate source) is emitted deduplicated. -/
theorem c9_imageUrls_nodup_witness :
    parse_product_page_imageUrls (fun _ s => s) "b" c9WDoc
      = [.str "og.jpg", .str "g1.jpg"]
    ∧ (parse_product_page_imageUrls (fun _ s => s) "b" c9WDoc).Nodup :=
  ⟨by decide, c9_imageUrls_nodup (fun _ s => s) "b" c9WDoc rfl⟩
